import Mathlib

/-!
Verification of the PathSense telemetry analytics engine (indexer, watchdog,
query planner) against its natural-language specification.

The Python sources (`nav_types.py`, `indexer_agent.py`, `watchdog_agent.py`,
`query_agent.py`, `tools.py`) are shallowly embedded below.  Numeric fields:
Python's float thresholds and measurements are modelled as exact rationals
(the decimal literals of the source, taken exactly); record timestamps are
integers as in the source.  External collaborators (record store, index
store, notifier) are modelled as an explicit environment, and calls to them
as an effect trace.
-/

namespace PathSense

/-! ### Constants (`nav_types.py`) -/

def CRASH_NEAR_M : ℚ := 0.6
def CONF_MIN : ℚ := 0.6
def MERGE_WINDOW_S : Int := 3
def STUCK_MIN_S : Int := 120
def STUCK_ALERT_S : Int := 300
def STUCK_VARIANCE_M : ℚ := 0.05
def STUCK_GAP_S : Int := 10
def ACCIDENT_PATTERN_WINDOW_S : Int := 5
def ACCIDENT_NO_PROCEED_S : Int := 30
def ACCIDENT_DEPTH_M : ℚ := 0.4
def ACCIDENT_CONF : ℚ := 0.7
def STUCK_DEBOUNCE : Int := 900
def ACCIDENT_DEBOUNCE : Int := 7200

def OBSTACLE_EVENTS : List String := ["obstacle_center", "obstacle_close", "collision_warning"]

def ACCIDENT_EVENTS : List String := ["fall", "impact", "collision", "device_drop"]

/-! ### Substring matching

Python's `sub in s` test on strings, used by `is_directional_event`, the
veer counting of watchdog pattern 3, and the query planner's intent
classification. -/

/-- Whether `sub` occurs at the beginning of `l` (character-list version). -/
def charsLead : List Char → List Char → Bool
  | [], _ => true
  | _ :: _, [] => false
  | a :: as, b :: bs => (a = b : Bool) && charsLead as bs

/-- Whether `sub` occurs contiguously anywhere in `l`. -/
def charsHas (sub : List Char) : List Char → Bool
  | [] => charsLead sub []
  | b :: bs => charsLead sub (b :: bs) || charsHas sub bs

/-- Python's `sub in s` for strings. -/
def strHas (s sub : String) : Bool := charsHas sub.toList s.toList

/-- `nav_types.is_directional_event`: any of the three movement markers occurs
as a substring of the event tag. -/
def isDirectional (e : String) : Bool :=
  strHas e "veer_left" || strHas e "veer_right" || strHas e "proceed"

/-! ### Record model -/

/-- A validated log record (`nav_types.LogRecord`).  A missing `classes`
field and an empty one are interchangeable downstream (`record.get` with
default and truthiness tests in the source), so `classes` is a plain list;
`free_ahead_m` keeps its present/absent distinction, which the source tests
with `is not None`. -/
structure LogRecord where
  client_id : String
  session_id : String
  t : Int
  events : List String
  classes : List String
  free_ahead_m : Option ℚ
  confidence : ℚ
  app : String
deriving DecidableEq, Repr, Inhabited

/-- A dynamically-typed field of a raw database row: it can be absent from
the row, present with a value of the wrong runtime type, or present with a
well-typed value. -/
inductive RawField (α : Type) where
  | missing
  | wrongType
  | val (a : α)
deriving DecidableEq, Repr

def RawField.isMissing {α : Type} : RawField α → Bool
  | .missing => true
  | _ => false

def RawField.isVal {α : Type} : RawField α → Bool
  | .val _ => true
  | _ => false

/-- A raw database row as consumed by `IndexerAgent.process_logs`.  The
validator checks only presence for `client_id`/`session_id` (never their
type), so those are plain options; `t`, `events` and `confidence` get a
runtime type check (`isinstance`) and are `RawField`s.  `classes`, `app`
and `free_ahead_m` are read with defaulting `get` calls. -/
structure RawRecord where
  client_id : Option String
  session_id : Option String
  t : RawField Int
  events : RawField (List String)
  confidence : RawField ℚ
  classes : Option (List String)
  free_ahead_m : Option ℚ
  app : Option String
deriving DecidableEq, Repr

/-- `IndexerAgent._validate_record`: the five required fields are present;
`t` is an int, `events` is a list, `confidence` is a number in `[0, 1]`. -/
def validateRecord (r : RawRecord) : Bool :=
  r.client_id.isSome && r.session_id.isSome && (!r.t.isMissing) &&
  (!r.events.isMissing) && (!r.confidence.isMissing) &&
  r.t.isVal && r.events.isVal &&
  (match r.confidence with
   | .val c => decide ((0 : ℚ) ≤ c ∧ c ≤ 1)
   | _ => false)

/-! ### The index (`nav_types.UserIndex`) and its construction -/

/-- Representative of a merged almost-crash moment
(`IndexerAgent._find_almost_crashes` output entries).  The `events` field
holds the record's obstacle events (the source materialises a Python set
intersection into a list; its arbitrary set order is modelled as the
record's event order). -/
structure CrashCand where
  t : Int
  free_ahead_m : Option ℚ
  classes : List String
  confidence : ℚ
  events : List String
deriving DecidableEq, Repr

/-- A stuck interval (`IndexerAgent._find_stuck_intervals` output entries). -/
structure StuckInterval where
  start_t : Int
  end_t : Int
  duration_s : Int
deriving DecidableEq, Repr

/-- `nav_types.UserIndex`.  Python's insertion-ordered dicts become ordered
association lists; the two entries of the `hazards` dict are two fields. -/
structure UserIndex where
  client_id : String
  by_time : List (Int × LogRecord)
  by_event : List (String × List Int)
  counters : List (String × Nat)
  by_class : List (String × Nat)
  hazards_almost : List CrashCand
  hazards_stuck : List StuckInterval
  dropped_records : Nat
deriving DecidableEq, Repr

def emptyIndex (client : String) : UserIndex :=
  { client_id := client, by_time := [], by_event := [], counters := [],
    by_class := [], hazards_almost := [], hazards_stuck := [], dropped_records := 0 }

/-- `index["by_time"][t] = record` on an insertion-ordered dict: overwriting
an existing key keeps its position, a new key is appended. -/
def assocUpdate (l : List (Int × LogRecord)) (t : Int) (r : LogRecord) :
    List (Int × LogRecord) :=
  if l.any (fun p => p.1 == t) then
    l.map (fun p => if p.1 == t then (t, r) else p)
  else
    l ++ [(t, r)]

/-- `index["by_event"][e].append(t)` on a `defaultdict(list)`. -/
def appendTime (l : List (String × List Int)) (k : String) (t : Int) :
    List (String × List Int) :=
  if l.any (fun p => p.1 == k) then
    l.map (fun p => if p.1 == k then (p.1, p.2 ++ [t]) else p)
  else
    l ++ [(k, [t])]

/-- `counter[k] += 1` on a `defaultdict(int)`. -/
def bumpCount (l : List (String × Nat)) (k : String) : List (String × Nat) :=
  if l.any (fun p => p.1 == k) then
    l.map (fun p => if p.1 == k then (p.1, p.2 + 1) else p)
  else
    l ++ [(k, 1)]

/-- `IndexerAgent._add_to_index`. -/
def addToIndex (idx : UserIndex) (r : LogRecord) : UserIndex :=
  let p := r.events.foldl
    (fun (p : List (String × List Int) × List (String × Nat)) e =>
      (appendTime p.1 e r.t, bumpCount p.2 e))
    (idx.by_event, idx.counters)
  { idx with
    by_time := assocUpdate idx.by_time r.t r
    by_event := p.1
    counters := p.2
    by_class := r.classes.foldl (fun c k => bumpCount c k) idx.by_class }

/-- One iteration of the record loop of `IndexerAgent.process_logs`: the
record dict construction (a missing required key raises `KeyError`, caught
by the `except` which counts a drop), then validation (failure counts a
drop), then `_add_to_index`. -/
def processOne (idx : UserIndex) (rr : RawRecord) : UserIndex :=
  if rr.client_id.isNone || rr.session_id.isNone || rr.t.isMissing ||
     rr.events.isMissing || rr.confidence.isMissing then
    { idx with dropped_records := idx.dropped_records + 1 }
  else if validateRecord rr then
    match rr.t, rr.events, rr.confidence with
    | RawField.val t, RawField.val evs, RawField.val conf =>
        addToIndex idx
          { client_id := rr.client_id.getD "", session_id := rr.session_id.getD "",
            t := t, events := evs, classes := rr.classes.getD [],
            free_ahead_m := rr.free_ahead_m, confidence := conf,
            app := rr.app.getD "unknown" }
    | _, _, _ => { idx with dropped_records := idx.dropped_records + 1 }
  else
    { idx with dropped_records := idx.dropped_records + 1 }

/-- The aggregation loop of `IndexerAgent.process_logs` (before hazards). -/
def buildIndexCore (client : String) (raws : List RawRecord) : UserIndex :=
  raws.foldl processOne (emptyIndex client)

/-! ### Sorting by timestamp

`sorted(index["by_time"].items(), key=lambda x: x[0])` and
`candidates.sort(key=lambda x: x["t"])`: stable ascending sorts, modelled
with `List.insertionSort` (stable). -/

def pairLe (a b : Int × LogRecord) : Prop := a.1 ≤ b.1

instance : DecidableRel pairLe := fun a b => Int.decLe a.1 b.1

instance : IsTotal (Int × LogRecord) pairLe := ⟨fun a b => Int.le_total a.1 b.1⟩

instance : IsTrans (Int × LogRecord) pairLe := ⟨fun _ _ _ h1 h2 => le_trans h1 h2⟩

def sortPairs (l : List (Int × LogRecord)) : List (Int × LogRecord) :=
  l.insertionSort pairLe

/-- Strict version of `pairLe`: the timestamps of by_time entries are
pairwise distinct, so the sorted entries are strictly increasing. -/
def pairLt (a b : Int × LogRecord) : Prop := a.1 < b.1

instance : IsTrans (Int × LogRecord) pairLt := ⟨fun _ _ _ h1 h2 => lt_trans h1 h2⟩

def candLe (a b : CrashCand) : Prop := a.t ≤ b.t

instance : DecidableRel candLe := fun a b => Int.decLe a.t b.t

instance : IsTotal CrashCand candLe := ⟨fun a b => Int.le_total a.t b.t⟩

instance : IsTrans CrashCand candLe := ⟨fun _ _ _ h1 h2 => le_trans h1 h2⟩

def sortCands (l : List CrashCand) : List CrashCand := l.insertionSort candLe

/-! ### Hazard: almost-crash moments (`IndexerAgent._find_almost_crashes`) -/

/-- The group-collapse key `x["free_ahead_m"] or 999`: Python's `or` falls
through to `999` when the depth is `None` **or** equal to `0.0` (a falsy
float). -/
def candKey (c : CrashCand) : ℚ :=
  match c.free_ahead_m with
  | none => 999
  | some d => if d = 0 then 999 else d

/-- Python's `min(group, key=candKey)`: the first element attaining the
minimal key. -/
def minByKey (c : CrashCand) (l : List CrashCand) : CrashCand :=
  l.foldl (fun b x => if candKey x < candKey b then x else b) c

/-- `min(current_group, key=...)` where the group is `g ++ [lastc]`. -/
def groupBest : List CrashCand → CrashCand → CrashCand
  | [], lastc => lastc
  | hd :: tl, lastc => minByKey hd (tl ++ [lastc])

/-- The merging loop over sorted candidates: the accumulated current group
is `g ++ [lastc]` (so the source's `current_group[-1]` is `lastc`). -/
def groupGo (g : List CrashCand) (lastc : CrashCand) : List CrashCand → List CrashCand
  | [] => [groupBest g lastc]
  | c :: rest =>
      if c.t - lastc.t ≤ MERGE_WINDOW_S then groupGo (g ++ [lastc]) c rest
      else groupBest g lastc :: groupGo [] c rest

/-- The sort-and-merge step of `_find_almost_crashes` (lines 209-231). -/
def mergeCandidates (l : List CrashCand) : List CrashCand :=
  match sortCands l with
  | [] => []
  | c :: rest => groupGo [] c rest

/-- Candidate filter of `_find_almost_crashes`: obstacle event present,
confidence at least `conf_min`, and depth absent or at most `crash_near_m`. -/
def crashCandidates (byTime : List (Int × LogRecord)) : List CrashCand :=
  byTime.filterMap (fun p =>
    let obst := p.2.events.filter (fun e => OBSTACLE_EVENTS.contains e)
    if obst.isEmpty then none
    else if p.2.confidence < CONF_MIN then none
    else
      match p.2.free_ahead_m with
      | some d =>
          if CRASH_NEAR_M < d then none
          else some ⟨p.1, some d, p.2.classes, p.2.confidence, obst⟩
      | none => some ⟨p.1, none, p.2.classes, p.2.confidence, obst⟩)

/-- `IndexerAgent._find_almost_crashes`. -/
def findAlmostCrashes (byTime : List (Int × LogRecord)) : List CrashCand :=
  mergeCandidates (crashCandidates byTime)

/-! ### Stationary predicate and stuck intervals
(`IndexerAgent._find_stuck_intervals`) -/

/-- Rolling depth window update: append, then drop the oldest if the window
exceeds 10 entries. -/
def pushDepth (ds : List ℚ) (d : ℚ) : List ℚ :=
  let ds' := ds ++ [d]
  if 10 < ds'.length then ds'.tail else ds'

/-- `if depth is not None: depths.append(depth); if len > 10: pop(0)` —
the per-record depth-window update shared by the walk's iterations. -/
def depthsUpd (ds : List ℚ) (r : LogRecord) : List ℚ :=
  match r.free_ahead_m with
  | some d => pushDepth ds d
  | none => ds

def listMax (d : ℚ) (l : List ℚ) : ℚ := l.foldl max d

def listMin (d : ℚ) (l : List ℚ) : ℚ := l.foldl min d

/-- `len(depths) >= 3 and max(depths) - min(depths) < STUCK_VARIANCE_M`. -/
def depthStationary (ds : List ℚ) : Bool :=
  match ds with
  | [] => false
  | d :: tl =>
      decide (3 ≤ (d :: tl).length) && decide (listMax d tl - listMin d tl < STUCK_VARIANCE_M)

/-- The indexer's per-record stationary test (`_find_stuck_intervals`,
lines 256-273), applied to the depth window already updated with the
record's own depth. -/
def isStationaryIx (r : LogRecord) (ds : List ℚ) : Bool :=
  (r.events.contains "stop" || depthStationary ds) && !(r.events.any isDirectional)

/-- The interval walk of `_find_stuck_intervals`: `cur` is the candidate
`(current_start, current_end)` (the source keeps two variables that are
always both `None` or both set), `depths` the rolling depth window.  On a
non-stationary record while a candidate is open, the candidate is emitted
if long enough and the depth window is reset. -/
def stuckWalkGo (cur : Option (Int × Int)) (depths : List ℚ) :
    List (Int × LogRecord) → List StuckInterval
  | [] =>
      match cur with
      | some (s, e) => if STUCK_MIN_S ≤ e - s then [⟨s, e, e - s⟩] else []
      | none => []
  | (t, r) :: rest =>
      let ds := depthsUpd depths r
      if isStationaryIx r ds then
        match cur with
        | none => stuckWalkGo (some (t, t)) ds rest
        | some (s, _) => stuckWalkGo (some (s, t)) ds rest
      else
        match cur with
        | some (s, e) =>
            (if STUCK_MIN_S ≤ e - s then [⟨s, e, e - s⟩] else []) ++
              stuckWalkGo none [] rest
        | none => stuckWalkGo none ds rest

/-- The final gap-merging loop of `_find_stuck_intervals`: `cur` is
`merged[-1]`. -/
def mergeStuckGo (cur : StuckInterval) : List StuckInterval → List StuckInterval
  | [] => [cur]
  | iv :: rest =>
      if iv.start_t - cur.end_t ≤ STUCK_GAP_S then
        mergeStuckGo ⟨cur.start_t, iv.end_t, iv.end_t - cur.start_t⟩ rest
      else
        cur :: mergeStuckGo iv rest

def mergeStuck : List StuckInterval → List StuckInterval
  | [] => []
  | iv :: rest => mergeStuckGo iv rest

/-- `IndexerAgent._find_stuck_intervals` (default `stuck_min_s`). -/
def findStuckIntervals (byTime : List (Int × LogRecord)) : List StuckInterval :=
  mergeStuck (stuckWalkGo none [] (sortPairs byTime))

/-- `IndexerAgent.process_logs` without the store traffic: build the index
from the fetched rows, then attach the hazards. -/
def processLogsPure (client : String) (raws : List RawRecord) : UserIndex :=
  let idx := buildIndexCore client raws
  { idx with
    hazards_almost := findAlmostCrashes idx.by_time
    hazards_stuck := findStuckIntervals idx.by_time }

/-! ### Watchdog (`watchdog_agent.py`) -/

/-- The watchdog's per-record stationary test (`_check_stuck`, lines
88-103): textually the same formula as the indexer's. -/
def wdIsStationary (r : LogRecord) (ds : List ℚ) : Bool :=
  (r.events.contains "stop" || depthStationary ds) && !(r.events.any isDirectional)

/-- The backward scan of `_check_stuck` (lines 83-108): walk the window
newest to oldest, updating the rolling depth window along the way; keep the
`t` of the last stationary record seen, stop at the first non-stationary
one.  The argument list is the reversed window. -/
def wdScanGo (acc : Option Int) (depths : List ℚ) : List LogRecord → Option Int
  | [] => acc
  | r :: rest =>
      let ds := match r.free_ahead_m with
                | some d => pushDepth depths d
                | none => depths
      if wdIsStationary r ds then wdScanGo (some r.t) ds rest
      else acc

/-- `WatchdogAgent._check_stuck` up to and including computing
`stationary_start`. -/
def wdStationaryStart (window : List LogRecord) : Option Int :=
  if window.length < 2 then none
  else wdScanGo none [] window.reverse

/-- `WatchdogAgent._check_stuck`: returns `some stationary_start` exactly
when a stuck alert is emitted (duration and debounce gates both pass). -/
def wdCheckStuck (now : Int) (window : List LogRecord) (stuckLast : Int) : Option Int :=
  match wdStationaryStart window with
  | none => none
  | some start =>
      if STUCK_ALERT_S ≤ now - start then
        if STUCK_DEBOUNCE ≤ now - stuckLast then some start else none
      else none

/-- Rationales of accident alerts; the source interpolates these data into
f-strings, modelled as a tagged payload. -/
inductive AccidentRationale where
  | direct (events : List String)
  | obstacleStop (depth : ℚ) (noProceed : Int)
  | veerSurge (count : Nat) (sinceMove : Int)
deriving DecidableEq, Repr

/-- Anchor indices scanned by accident pattern 2:
`range(len(window) - 1, max(0, len(window) - 10), -1)` — the stop bound is
exclusive (`Nat` subtraction is Python's `max(0, ·)`). -/
def p2AnchorIdx (n : Nat) : List Nat :=
  ((List.range n).filter (fun i => n - 10 < i)).reverse

/-- The forward scan from an anchor (pattern 2 inner loop, lines 167-182):
look for a `stop`, then track the no-proceed duration until a directional
event or the time window bound. -/
def p2Inner (obstacleT : Int) : List LogRecord → Bool → Int → Bool × Int
  | [], sf, np => (sf, np)
  | fr :: rest, sf, np =>
      if ACCIDENT_PATTERN_WINDOW_S + ACCIDENT_NO_PROCEED_S < fr.t - obstacleT then (sf, np)
      else
        let sf' := sf || fr.events.contains "stop"
        if sf' then
          if fr.events.any isDirectional then (sf', np)
          else p2Inner obstacleT rest sf' (fr.t - obstacleT)
        else p2Inner obstacleT rest sf' np

/-- Try one anchor index for pattern 2 (lines 150-190). -/
def p2TryAnchor (window : List LogRecord) (i : Nat) : Option (Int × ℚ × Int) :=
  match window[i]? with
  | none => none
  | some anchor =>
      if !(anchor.events.any (fun e => OBSTACLE_EVENTS.contains e)) then none
      else if anchor.confidence < ACCIDENT_CONF then none
      else
        match anchor.free_ahead_m with
        | none => none
        | some depth =>
            if ACCIDENT_DEPTH_M < depth then none
            else
              let r := p2Inner anchor.t (window.drop (i + 1)) false 0
              if r.1 && ACCIDENT_NO_PROCEED_S ≤ r.2 then some (anchor.t, depth, r.2)
              else none

def p2Scan (window : List LogRecord) : List Nat → Option (Int × ℚ × Int)
  | [] => none
  | i :: is =>
      match p2TryAnchor window i with
      | some r => some r
      | none => p2Scan window is

/-- Accident pattern 2 over the current window. -/
def checkPattern2 (window : List LogRecord) : Option (Int × ℚ × Int) :=
  p2Scan window (p2AnchorIdx window.length)

/-- `veer_count` of pattern 3: per-event count of tags containing `veer`
over the last 5 records. -/
def veerCount (window : List LogRecord) : Nat :=
  ((window.drop (window.length - 5)).map
    (fun r => r.events.countP (fun e => strHas e "veer"))).sum

/-- `time_since_last_move` of pattern 3: walk the last 10 records newest to
oldest until a directional event. -/
def tslmGo (curT : Int) : List LogRecord → Int → Int
  | [], acc => acc
  | r :: rest, acc =>
      if r.events.any isDirectional then acc
      else tslmGo curT rest (curT - r.t)

def timeSinceLastMove (curT : Int) (window : List LogRecord) : Int :=
  tslmGo curT ((window.drop (window.length - 10)).reverse) 0

/-- `WatchdogAgent._check_accident` (the `window` already contains
`current`): the first matching pattern yields the alert's `t` and
rationale.  The debounce of `_send_accident_alert` is applied by the
caller, `wdStep`. -/
def checkAccident (window : List LogRecord) (current : LogRecord) : Option (Int × AccidentRationale) :=
  let accEvts := current.events.filter (fun e => ACCIDENT_EVENTS.contains e)
  if !accEvts.isEmpty then some (current.t, .direct accEvts)
  else if window.length < 3 then none
  else
    match checkPattern2 window with
    | some (t, d, np) => some (t, .obstacleStop d np)
    | none =>
        if 3 ≤ veerCount window && current.events.contains "stop" then
          let tslm := timeSinceLastMove current.t window
          if 120 ≤ tslm then some (current.t, .veerSurge (veerCount window) tslm)
          else none
        else none

/-- Per-client watchdog state: rolling window (oldest first, capacity 100)
and the two last-alert wall-clock times (`dict.get(client, 0)` default 0). -/
structure WDState where
  window : List LogRecord
  stuckLast : Int
  accidentLast : Int
deriving DecidableEq, Repr

def wdInit : WDState := ⟨[], 0, 0⟩

/-- `deque(maxlen=100).append`. -/
def pushWindow (w : List LogRecord) (r : LogRecord) : List LogRecord :=
  let w' := w ++ [r]
  if 100 < w'.length then w'.tail else w'

/-- An emitted alert, tagged with the wall-clock second of emission. -/
inductive WDAlert where
  | stuck (now : Int) (since : Int)
  | accident (now : Int) (t : Int) (rationale : AccidentRationale)
deriving DecidableEq, Repr

/-- `WatchdogAgent.process_record` at wall-clock `now`: append to the
window, run the stuck check (updating `stuck_alerts` on emission), then the
accident check (whose `_send_accident_alert` applies its own debounce and
updates `accident_alerts`). -/
def wdStep (now : Int) (r : LogRecord) (s : WDState) : WDState × List WDAlert :=
  let w := pushWindow s.window r
  match wdCheckStuck now w s.stuckLast, checkAccident w r with
  | some since, some (t, rat) =>
      if now - s.accidentLast < ACCIDENT_DEBOUNCE then
        (⟨w, now, s.accidentLast⟩, [.stuck now since])
      else
        (⟨w, now, now⟩, [.stuck now since, .accident now t rat])
  | some since, none => (⟨w, now, s.accidentLast⟩, [.stuck now since])
  | none, some (t, rat) =>
      if now - s.accidentLast < ACCIDENT_DEBOUNCE then (⟨w, s.stuckLast, s.accidentLast⟩, [])
      else (⟨w, s.stuckLast, now⟩, [.accident now t rat])
  | none, none => (⟨w, s.stuckLast, s.accidentLast⟩, [])

/-- One external interaction with the watchdog for a fixed client: a record
arriving at wall-clock `now`, or `clear_client_state`. -/
inductive WDOp where
  | procRec (now : Int) (r : LogRecord)
  | clearState
deriving DecidableEq, Repr

/-- Run the watchdog over a sequence of interactions, collecting the
emitted alerts in order.  `clear_client_state` empties the window and drops
both last-alert times (their `get` default becomes 0 again). -/
def wdRun : WDState → List WDOp → List WDAlert
  | _, [] => []
  | s, WDOp.procRec now r :: rest =>
      (wdStep now r s).2 ++ wdRun (wdStep now r s).1 rest
  | _, WDOp.clearState :: rest => wdRun ⟨[], 0, 0⟩ rest

/-- The state fold of `wdRun`: the watchdog's per-client state after a
sequence of interactions. -/
def wdRunState : WDState → List WDOp → WDState
  | s, [] => s
  | s, WDOp.procRec now r :: rest => wdRunState (wdStep now r s).1 rest
  | _, WDOp.clearState :: rest => wdRunState ⟨[], 0, 0⟩ rest

def stuckTimes (l : List WDAlert) : List Int :=
  l.filterMap (fun a => match a with
    | .stuck now _ => some now
    | _ => none)

def accidentTimes (l : List WDAlert) : List Int :=
  l.filterMap (fun a => match a with
    | .accident now _ _ => some now
    | _ => none)

/-! ### Query planner (`query_agent.py`) -/

inductive MetricType where
  | almost_crash
  | stuck_minutes
  | stuck_intervals
  | accident
  | event_counts
deriving DecidableEq, Repr

/-- `QueryAgent._classify_intent` (case-insensitive substring match on the
question, first match wins). -/
def classifyIntent (question : String) : MetricType :=
  let q := question.toLower
  if strHas q "almost crash" || strHas q "near miss" || strHas q "collision warning" ||
     strHas q "close call" then .almost_crash
  else if strHas q "stuck" || strHas q "not moving" || strHas q "stationary" then
    if strHas q "interval" || strHas q "when" || strHas q "show" then .stuck_intervals
    else .stuck_minutes
  else if strHas q "accident" || strHas q "fell" || strHas q "fall" ||
          strHas q "collision" || strHas q "crashed" || strHas q "impact" then .accident
  else .event_counts

/-- `nav_types.QueryParams` (defaults from the constants). -/
structure QueryParams where
  crash_near_m : ℚ := CRASH_NEAR_M
  stuck_min_s : Int := STUCK_MIN_S
  conf_min : ℚ := CONF_MIN
deriving DecidableEq, Repr

/-- Python's `round` (banker's rounding) on an exact rational. -/
def roundHalfEven (q : ℚ) : Int :=
  let f := ⌊q⌋
  if q - f < 1 / 2 then f
  else if (1 : ℚ) / 2 < q - f then f + 1
  else if f % 2 = 0 then f else f + 1

/-- `round(x, 1)`. -/
def round1 (q : ℚ) : ℚ := (roundHalfEven (q * 10) : ℚ) / 10

/-- The metric outcome (the `result` member of the response envelope); the
source renders it as a dict with these payloads. -/
inductive MetricResult where
  | almostCrash (count : Nat)
  | stuckMinutes (minutes : ℚ)
  | stuckIntervals (intervals : List StuckInterval)
  | accident (detected : Bool) (first_t : Option Int) (rationale : Option AccidentRationale)
  | eventCounts (byEvent : List (String × Nat)) (byClass : List (String × Nat))
deriving DecidableEq, Repr

/-- Pattern-2 inner loop of `QueryAgent._compute_accident` (lines 355-368):
as the watchdog's, but over `(t, record)` pairs using the `by_time` key as
the time. -/
def qp2Inner (anchorT : Int) : List (Int × LogRecord) → Bool → Int → Bool × Int
  | [], sf, np => (sf, np)
  | (t2, r2) :: rest, sf, np =>
      if ACCIDENT_PATTERN_WINDOW_S + ACCIDENT_NO_PROCEED_S < t2 - anchorT then (sf, np)
      else
        let sf' := sf || r2.events.contains "stop"
        if sf' then
          if r2.events.any isDirectional then (sf', np)
          else qp2Inner anchorT rest sf' (t2 - anchorT)
        else qp2Inner anchorT rest sf' np

/-- Pattern-2 anchor loop of `QueryAgent._compute_accident`: anchors are
tried in ascending record order, each looking only at later records. -/
def qp2Scan : List (Int × LogRecord) → Option (Int × ℚ × Int)
  | [] => none
  | (t, r) :: rest =>
      let tryHere : Option (Int × ℚ × Int) :=
        if !(r.events.any (fun e => OBSTACLE_EVENTS.contains e)) then none
        else if r.confidence < ACCIDENT_CONF then none
        else
          match r.free_ahead_m with
          | none => none
          | some depth =>
              if ACCIDENT_DEPTH_M < depth then none
              else
                let res := qp2Inner t rest false 0
                if res.1 && ACCIDENT_NO_PROCEED_S ≤ res.2 then some (t, depth, res.2)
                else none
      match tryHere with
      | some hit => some hit
      | none => qp2Scan rest

/-- `QueryAgent._compute_accident` (patterns 1 and 2 over the index's
records). -/
def qAccident (byTime : List (Int × LogRecord)) : MetricResult :=
  let records := sortPairs byTime
  match records.find? (fun p => p.2.events.any (fun e => ACCIDENT_EVENTS.contains e)) with
  | some (t, r) =>
      .accident true (some t) (some (.direct (r.events.filter (fun e => ACCIDENT_EVENTS.contains e))))
  | none =>
      match qp2Scan records with
      | some (t, d, np) => .accident true (some t) (some (.obstacleStop d np))
      | none => .accident false none none

/-- `QueryAgent._compute_metric` (the `result` part; the `samples` member
of the envelope is a rendering of prefixes of the same data and is not
modelled). -/
def computeMetric (m : MetricType) (idx : UserIndex) (p : QueryParams) : MetricResult :=
  match m with
  | .almost_crash =>
      .almostCrash ((idx.hazards_almost.filter (fun mo =>
        decide (p.conf_min ≤ mo.confidence) &&
        (match mo.free_ahead_m with
         | none => true
         | some d => decide (d ≤ p.crash_near_m)))).length)
  | .stuck_minutes =>
      let filtered := idx.hazards_stuck.filter (fun iv => decide (p.stuck_min_s ≤ iv.duration_s))
      .stuckMinutes (round1 (((filtered.map (fun iv => iv.duration_s)).sum : ℚ) / 60))
  | .stuck_intervals =>
      .stuckIntervals (idx.hazards_stuck.filter (fun iv => decide (p.stuck_min_s ≤ iv.duration_s)))
  | .accident => qAccident idx.by_time
  | .event_counts => .eventCounts idx.counters idx.by_class

/-! ### External stores and `handle_query` -/

/-- A call to an external collaborator (record store, index store). -/
inductive Eff where
  | readIndex (key : String)
  | readLogs (client : String) (session : Option String) (ts te : Option Int)
  | persistIndex (key : String)
deriving DecidableEq, Repr

/-- The environment of external collaborators: the authorization predicate,
the persisted-index store, and the record store. -/
structure Env where
  auth : String → String → Bool
  indexStore : String → Option UserIndex
  getLogs : String → Option String → Option Int → Option Int → List RawRecord

/-- The persistence key `index:<client>[:<session>]` (an empty session id is
falsy in the source's `if session_id:` and adds no suffix). -/
def indexKey (client : String) (session : Option String) : String :=
  "index:" ++ client ++
    (match session with
     | some s => if s.isEmpty then "" else ":" ++ s
     | none => "")

/-- `IndexerAgent.process_logs` with its store traffic: fetch the rows,
build the index with hazards, persist it. -/
def processLogsEff (env : Env) (client : String) (session : Option String)
    (ts te : Option Int) : UserIndex × List Eff :=
  let idx := processLogsPure client (env.getLogs client session ts te)
  (idx, [Eff.readLogs client session ts te, Eff.persistIndex (indexKey client session)])

/-- `QueryAgent._load_index`: return the cached index for the key, else
rebuild through the Indexer with the parsed window. -/
def loadIndex (env : Env) (client : String) (session : Option String)
    (ts te : Int) : UserIndex × List Eff :=
  let key := indexKey client session
  match env.indexStore key with
  | some idx => (idx, [Eff.readIndex key])
  | none =>
      let r := processLogsEff env client session (some ts) (some te)
      (r.1, Eff.readIndex key :: r.2)

inductive QErr where
  | unauthorized
deriving DecidableEq, Repr

/-- The structured response of `handle_query` (`answer_text` and the
`samples` member are deterministic renderings of these fields and the
index data; they are not modelled). -/
structure QueryOut where
  client_id : String
  timeWindow : Int × Int
  metric : MetricType
  params : QueryParams
  result : MetricResult
deriving DecidableEq, Repr

/-- `QueryAgent.handle_query`.  The authorization gate comes first; the
time strings have already been parsed to the epoch seconds `ts`, `te`
(`_parse_time_window` touches no store).  On success the planner
classifies the question, loads or rebuilds the index, and computes the
metric from it. -/
def handleQuery (env : Env) (requester client question : String)
    (session : Option String) (ts te : Int) (params : QueryParams) :
    Except QErr QueryOut × List Eff :=
  if env.auth requester client then
    let metric := classifyIntent question
    let li := loadIndex env client session ts te
    (Except.ok
      { client_id := client, timeWindow := (ts, te), metric := metric,
        params := params, result := computeMetric metric li.1 params },
     li.2)
  else
    (Except.error QErr.unauthorized, [])

def resultOf : Except QErr QueryOut → Option MetricResult
  | .ok o => some o.result
  | .error _ => none

/-! ### Per-record stationary classifications for comparing the two agents -/

/-- The sequence of per-record `is_stationary` values computed by the
indexer's walk in `_find_stuck_intervals`, in record order (the depth
window resets exactly when the walk closes a candidate interval). -/
def ixFlagsGo (cur : Option (Int × Int)) (depths : List ℚ) :
    List (Int × LogRecord) → List Bool
  | [] => []
  | (t, r) :: rest =>
      let ds := match r.free_ahead_m with
                | some d => pushDepth depths d
                | none => depths
      if isStationaryIx r ds then
        true :: ixFlagsGo (match cur with
                           | none => some (t, t)
                           | some (s, _) => some (s, t)) ds rest
      else
        match cur with
        | some _ => false :: ixFlagsGo none [] rest
        | none => false :: ixFlagsGo none ds rest

def ixStationaryFlags (byTime : List (Int × LogRecord)) : List Bool :=
  ixFlagsGo none [] byTime

/-! ### Named relations used in the statements -/

/-- `a` is entirely before `b`, with no overlap. -/
def ivBefore (a b : StuckInterval) : Prop :=
  a.end_t < b.start_t ∧ a.start_t < b.start_t

instance : IsTrans StuckInterval ivBefore :=
  ⟨fun _ _ _ h1 h2 => ⟨lt_trans h1.1 h2.2, lt_trans h1.2 h2.2⟩⟩

instance : DecidableRel ivBefore := fun _ _ => instDecidableAnd

/-- Strict separation of two intervals (pre-merge invariant). -/
def ivSep (a b : StuckInterval) : Prop := a.end_t < b.start_t

/-- Consecutive intervals separated by more than `STUCK_GAP_S`. -/
def ivGap (a b : StuckInterval) : Prop := STUCK_GAP_S < b.start_t - a.end_t

/-- Every interval records a consistent duration of at least
`STUCK_MIN_S`. -/
def goodDurations (l : List StuckInterval) : Prop :=
  ∀ iv ∈ l, iv.duration_s = iv.end_t - iv.start_t ∧ STUCK_MIN_S ≤ iv.duration_s

/-- Alert times separated by the stuck debounce. -/
def debS (a b : Int) : Prop := a + STUCK_DEBOUNCE ≤ b

/-- Alert times separated by the accident debounce. -/
def debA (a b : Int) : Prop := a + ACCIDENT_DEBOUNCE ≤ b

instance : IsTrans Int debS :=
  ⟨fun a b c h1 h2 => by
    have : (0 : Int) ≤ STUCK_DEBOUNCE := by norm_num [STUCK_DEBOUNCE]
    unfold debS at *; linarith⟩

instance : IsTrans Int debA :=
  ⟨fun a b c h1 h2 => by
    have : (0 : Int) ≤ ACCIDENT_DEBOUNCE := by norm_num [ACCIDENT_DEBOUNCE]
    unfold debA at *; linarith⟩

instance : DecidableRel debS := fun _ _ => Int.decLe _ _

instance : DecidableRel debA := fun _ _ => Int.decLe _ _

/-! ### Concrete inputs used by witnesses and counterexamples -/

/-- A well-formed record with the given timestamp, events, confidence and
optional forward clearance. -/
def demoRec (t : Int) (evs : List String) (conf : ℚ) (d : Option ℚ) : LogRecord :=
  { client_id := "c", session_id := "s", t := t, events := evs, classes := [],
    free_ahead_m := d, confidence := conf, app := "a" }

def stopRec (t : Int) : LogRecord := demoRec t ["stop"] 0.9 none

/-- Two obstacle records 1 s apart, depths 0.0 m and 0.5 m: one merge group. -/
def c2ByTime : List (Int × LogRecord) :=
  [(0, demoRec 0 ["obstacle_center"] 0.8 (some 0)),
   (1, demoRec 1 ["obstacle_center"] 0.8 (some 0.5))]

/-- Four records with identical depth 1.0 m and no stop/directional event:
the indexer's ascending walk has a full depth window from the third record
on, the watchdog's backward scan starts from an empty one. -/
def c3Window : List LogRecord :=
  [demoRec 0 ["beep"] 0.9 (some 1), demoRec 1 ["beep"] 0.9 (some 1),
   demoRec 2 ["beep"] 0.9 (some 1), demoRec 3 ["beep"] 0.9 (some 1)]

/-- The spec's scenario S3: obstacle with 0.3 m clearance at `t=0`, stops at
`t=3` and `t=35`. -/
def s3Window : List LogRecord :=
  [demoRec 0 ["obstacle_center"] 0.8 (some 0.3),
   demoRec 3 ["stop"] 0.9 none, demoRec 35 ["stop"] 0.9 none]

/-- A stuck alert at wall-clock 1000, a `clear_client_state`, then another
stuck alert at wall-clock 1100. -/
def c9OpsClear : List WDOp :=
  [WDOp.procRec 1000 (stopRec 0), WDOp.procRec 1000 (stopRec 1),
   WDOp.clearState,
   WDOp.procRec 1100 (stopRec 2), WDOp.procRec 1100 (stopRec 3)]

/-- A prefix that raises a stuck alert at wall-clock 1000 and then clears
the client's state. -/
def c9OpsPre : List WDOp :=
  [WDOp.procRec 1000 (stopRec 0), WDOp.procRec 1000 (stopRec 1), WDOp.clearState]

/-- A clear-free segment raising stuck alerts at wall-clock 1100 and 2100. -/
def c9OpsSeg : List WDOp :=
  [WDOp.procRec 1100 (stopRec 2), WDOp.procRec 1100 (stopRec 3),
   WDOp.procRec 2100 (stopRec 4)]

/-- An environment that denies every requester. -/
def envDeny : Env :=
  { auth := fun _ _ => false, indexStore := fun _ => none,
    getLogs := fun _ _ _ _ => [] }

/-- A small persisted index. -/
def demoIdx : UserIndex :=
  { client_id := "alice", by_time := [(0, stopRec 0)], by_event := [("stop", [0])],
    counters := [("stop", 1)], by_class := [], hazards_almost := [],
    hazards_stuck := [], dropped_records := 0 }

/-- An environment that authorizes everyone and always has `demoIdx`
persisted. -/
def envHit : Env :=
  { auth := fun _ _ => true, indexStore := fun _ => some demoIdx,
    getLogs := fun _ _ _ _ => [] }

/-- A raw row whose `events` field is present and an empty list, all other
fields valid. -/
def rrEmptyEvents : RawRecord :=
  { client_id := some "c", session_id := some "s", t := RawField.val 0,
    events := RawField.val [], confidence := RawField.val (1/2), classes := none,
    free_ahead_m := none, app := none }

/-- A raw row with well-typed fields and confidence 2. -/
def rrBadConf : RawRecord :=
  { client_id := some "c", session_id := some "s", t := RawField.val 0,
    events := RawField.val ["stop"], confidence := RawField.val 2, classes := none,
    free_ahead_m := none, app := none }

/-! ## Theorems -/

/-- Claim C1: when `is_authorized(requester_id, client_id)` is false,
`handle_query` fails with `Unauthorized` and its effect trace is empty: no
record read, index read, index rebuild or index write happens before or
after the failure. -/
theorem c1_authorization_gate (env : Env) (rq cl q : String) (sess : Option String)
    (ts te : Int) (p : QueryParams) (h : env.auth rq cl = false) :
    handleQuery env rq cl q sess ts te p = (Except.error QErr.unauthorized, []) := by
  simp [handleQuery, h]

/-- Witness for C1 at a concrete denying environment. -/
theorem c1_authorization_gate_witness :
    handleQuery envDeny "bob" "alice" "top events" none 0 100 {} =
      (Except.error QErr.unauthorized, []) :=
  c1_authorization_gate envDeny "bob" "alice" "top events" none 0 100 {} rfl

/-- Claim C5: a raw row whose `confidence` is a number outside `[0, 1]` is
dropped by the index build: the resulting index is the input index with
`dropped_records` incremented by exactly one, so the row contributes
nothing to `by_time`, `by_event`, `counters`, `by_class`, or the hazards
derived from them. -/
theorem c5_bad_confidence_dropped (idx : UserIndex) (rr : RawRecord) (c : ℚ)
    (hc : rr.confidence = RawField.val c) (hout : c < 0 ∨ 1 < c) :
    processOne idx rr = { idx with dropped_records := idx.dropped_records + 1 } := by
  have hval : validateRecord rr = false := by
    unfold validateRecord
    rw [hc]
    have hdec : decide ((0 : ℚ) ≤ c ∧ c ≤ 1) = false := by
      apply decide_eq_false
      rintro ⟨h1, h2⟩
      rcases hout with h | h
      · exact absurd h1 (not_le.2 h)
      · exact absurd h2 (not_le.2 h)
    simp [hdec]
  unfold processOne
  split
  · rfl
  · rw [hval]
    simp

/-- Witness for C5: confidence 2 is dropped with exactly one drop counted. -/
theorem c5_bad_confidence_dropped_witness :
    processOne (emptyIndex "c") rrBadConf =
      { emptyIndex "c" with dropped_records := (emptyIndex "c").dropped_records + 1 } :=
  c5_bad_confidence_dropped (emptyIndex "c") rrBadConf 2 rfl (Or.inr (by norm_num))

set_option maxRecDepth 8192 in
/-- Claim C6 counterexample: a raw row whose `events` field is an empty
list passes `_validate_record` and is added to the index (no drop is
counted), contradicting the claim that empty `events` fails validation. -/
theorem c6_empty_events_accepted :
    validateRecord rrEmptyEvents = true ∧
    (processOne (emptyIndex "c") rrEmptyEvents).dropped_records = 0 := by
  with_unfolding_all decide

/-- Claim C6, amended: the validator only requires `events` to be a list —
its contents (in particular emptiness) never influence validation — while a
row whose `events` field is missing or not a list is dropped with the drop
counter incremented. -/
theorem c6_events_sequence_check_only :
    (∀ (rr : RawRecord) (es : List String),
      validateRecord { rr with events := RawField.val es } =
        validateRecord { rr with events := RawField.val [] }) ∧
    (∀ (idx : UserIndex) (rr : RawRecord),
      rr.events = RawField.missing ∨ rr.events = RawField.wrongType →
      processOne idx rr = { idx with dropped_records := idx.dropped_records + 1 }) := by
  constructor
  · intro rr es
    rfl
  · intro idx rr h
    rcases h with h | h
    · unfold processOne
      rw [h]
      simp [RawField.isMissing]
    · have hval : validateRecord rr = false := by
        unfold validateRecord
        rw [h]
        simp [RawField.isVal]
      unfold processOne
      split
      · rfl
      · rw [hval]
        simp

/-- Witness for the amended C6: non-emptiness is not checked, and a
non-list `events` value is dropped. -/
theorem c6_events_sequence_check_only_witness :
    validateRecord { rrEmptyEvents with events := RawField.val ["stop"] } =
      validateRecord { rrEmptyEvents with events := RawField.val [] } ∧
    processOne (emptyIndex "c") { rrEmptyEvents with events := RawField.wrongType } =
      { emptyIndex "c" with
        dropped_records := (emptyIndex "c").dropped_records + 1 } :=
  ⟨c6_events_sequence_check_only.1 rrEmptyEvents ["stop"],
   c6_events_sequence_check_only.2 (emptyIndex "c") _ (Or.inr rfl)⟩

set_option maxRecDepth 8192 in
/-- Claim C2, evaluation at the failing input: two obstacle candidates 1 s
apart form one merge group with depths 0.0 m and 0.5 m; because the
collapse key is `x["free_ahead_m"] or 999` and `0.0` is falsy, the 0.0 m
candidate gets key 999 and the selected representative is the 0.5 m one,
although the group contains a candidate with strictly smaller depth. -/
theorem c2_zero_depth_loses_selection :
    findAlmostCrashes c2ByTime =
      [{ t := 1, free_ahead_m := some 0.5, classes := [], confidence := 0.8,
         events := ["obstacle_center"] }] ∧
    candKey { t := 0, free_ahead_m := some 0, classes := [], confidence := 0.8,
              events := ["obstacle_center"] } = 999 := by
  with_unfolding_all decide

set_option maxRecDepth 8192 in
/-- Claim C4, evaluation at the failing input (the spec's scenario S3):
with a three-record window the pattern-2 anchor scan
`range(len-1, max(0, len-10), -1)` visits only indices `[2, 1]` — never
index 0, where the qualifying obstacle sits — so no accident is detected;
yet anchored at index 0 the forward scan would report a stop with 35 s of
no movement. -/
theorem c4_anchor_scan_skips_oldest :
    p2AnchorIdx 3 = [2, 1] ∧
    checkAccident s3Window (demoRec 35 ["stop"] 0.9 none) = none ∧
    p2Inner 0 [demoRec 3 ["stop"] 0.9 none, demoRec 35 ["stop"] 0.9 none] false 0 =
      (true, 35) := by
  with_unfolding_all decide

set_option maxRecDepth 8192 in
/-- Claim C3 counterexample: over the same four records (constant depth
1.0 m, no stop or directional events), the indexer's ascending walk judges
the third and fourth records stationary, but the watchdog's backward scan
judges the newest record non-stationary (its depth window holds a single
value at that point), so its stationary run is empty.  The per-record
judgments do not coincide. -/
theorem c3_classifications_differ :
    ixStationaryFlags (c3Window.map (fun r => (r.t, r))) = [false, false, true, true] ∧
    wdStationaryStart c3Window = none := by
  with_unfolding_all decide

/-- Claim C3, amended: the watchdog and the indexer share the same
stationary predicate as a function of the record and the current depth
window — stop present or at least three depths spreading less than
`STUCK_VARIANCE_M`, and no directional event — but they accumulate that
window in opposite directions, so per-record judgments over the same
records may differ. -/
theorem c3_same_stationary_predicate :
    ∀ (r : LogRecord) (ds : List ℚ), wdIsStationary r ds = isStationaryIx r ds :=
  fun _ _ => rfl

set_option maxRecDepth 8192 in
/-- Claim C9 counterexample: two stuck alerts for the same client separated
by only 100 s of wall-clock time, because a `clear_client_state` between
them dropped the debounce timestamp. -/
theorem c9_debounce_reset_by_clear :
    stuckTimes (wdRun wdInit c9OpsClear) = [1000, 1100] ∧
    ¬ debS 1000 1100 := by
  with_unfolding_all decide

/-- Claim C10: under authorization, when a persisted index exists for
`index:<client>[:<session>]` the whole store traffic of `handle_query` is
that single index read — the Indexer is not invoked — and the computed
metric result is independent of the parsed `time_start`/`time_end`; when no
index is persisted for the key, the Indexer is invoked with exactly the
parsed window and the rebuilt index is persisted. -/
theorem c10_cached_index_short_circuit (env : Env) (rq cl q : String)
    (sess : Option String) (p : QueryParams) (ts1 te1 ts2 te2 : Int)
    (hauth : env.auth rq cl = true) :
    (∀ idx, env.indexStore (indexKey cl sess) = some idx →
      (handleQuery env rq cl q sess ts1 te1 p).2 = [Eff.readIndex (indexKey cl sess)] ∧
      resultOf (handleQuery env rq cl q sess ts1 te1 p).1 =
        resultOf (handleQuery env rq cl q sess ts2 te2 p).1) ∧
    (env.indexStore (indexKey cl sess) = none →
      (handleQuery env rq cl q sess ts1 te1 p).2 =
        [Eff.readIndex (indexKey cl sess), Eff.readLogs cl sess (some ts1) (some te1),
         Eff.persistIndex (indexKey cl sess)]) := by
  constructor
  · intro idx h
    constructor
    · simp [handleQuery, hauth, loadIndex, h]
    · simp [handleQuery, hauth, loadIndex, h, resultOf]
  · intro h
    simp [handleQuery, hauth, loadIndex, h, processLogsEff]

/-- Witness for C10 at a concrete environment with a persisted index: the
trace is one index read and two different parsed windows give the same
metric result. -/
theorem c10_cached_index_short_circuit_witness :
    (handleQuery envHit "bob" "alice" "top events" none 0 100 {}).2 =
      [Eff.readIndex (indexKey "alice" none)] ∧
    resultOf (handleQuery envHit "bob" "alice" "top events" none 0 100 {}).1 =
      resultOf (handleQuery envHit "bob" "alice" "top events" none 555 999 {}).1 :=
  (c10_cached_index_short_circuit envHit "bob" "alice" "top events" none {} 0 100 555 999
    rfl).1 demoIdx rfl

/-- A stuck alert is only emitted when the stuck debounce gate passes. -/
theorem wdCheckStuck_debounce {now : Int} {w : List LogRecord} {last x : Int}
    (h : wdCheckStuck now w last = some x) : debS last now := by
  unfold wdCheckStuck at h
  rcases hs : wdStationaryStart w with _ | start
  · rw [hs] at h
    simp at h
  · rw [hs] at h
    dsimp only at h
    split_ifs at h with h1 h2
    unfold debS
    linarith

/-- Debounce invariant of a clear-free watchdog run: the stuck (resp.
accident) alert times form a `debS`- (resp. `debA`-) chain, and the first
one is debounced against the incoming state's timestamp. -/
theorem wdRun_debounce (ops : List WDOp) : ∀ (s : WDState), WDOp.clearState ∉ ops →
    (List.Chain' debS (stuckTimes (wdRun s ops)) ∧
      ∀ x ∈ (stuckTimes (wdRun s ops)).head?, debS s.stuckLast x) ∧
    (List.Chain' debA (accidentTimes (wdRun s ops)) ∧
      ∀ x ∈ (accidentTimes (wdRun s ops)).head?, debA s.accidentLast x) := by
  induction ops with
  | nil =>
    intro s _
    simp [wdRun, stuckTimes, accidentTimes]
  | cons op rest ih =>
    intro s hni
    cases op with
    | clearState => exact absurd (List.mem_cons_self _ _) hni
    | procRec now r =>
      have hrest : WDOp.clearState ∉ rest := fun hm => hni (List.mem_cons_of_mem _ hm)
      have hrun : wdRun s (WDOp.procRec now r :: rest) =
          (wdStep now r s).2 ++ wdRun (wdStep now r s).1 rest := rfl
      rcases h1 : wdCheckStuck now (pushWindow s.window r) s.stuckLast with _ | since <;>
        rcases h2 : checkAccident (pushWindow s.window r) r with _ | ⟨t, rat⟩
      · -- no stuck, no accident
        have hstep : wdStep now r s =
            (⟨pushWindow s.window r, s.stuckLast, s.accidentLast⟩, []) := by
          simp only [wdStep, h1, h2]
        rw [hrun, hstep]
        simpa using ih _ hrest
      · -- no stuck, accident pattern hit (debounce may suppress)
        by_cases hdb : now - s.accidentLast < ACCIDENT_DEBOUNCE
        · have hstep : wdStep now r s =
              (⟨pushWindow s.window r, s.stuckLast, s.accidentLast⟩, []) := by
            simp only [wdStep, h1, h2]
            rw [if_pos hdb]
          rw [hrun, hstep]
          simpa using ih _ hrest
        · have hstep : wdStep now r s =
              (⟨pushWindow s.window r, s.stuckLast, now⟩, [WDAlert.accident now t rat]) := by
            simp only [wdStep, h1, h2]
            rw [if_neg hdb]
          rw [hrun, hstep]
          have IH := ih (⟨pushWindow s.window r, s.stuckLast, now⟩ : WDState) hrest
          have hda : debA s.accidentLast now := by
            unfold debA
            omega
          refine ⟨?_, ?_⟩
          · simpa [stuckTimes, accidentTimes, List.filterMap_append] using IH.1
          · constructor
            · simp only [stuckTimes, accidentTimes, List.filterMap_append] at IH ⊢
              simp only [List.filterMap]
              refine List.chain'_cons'.mpr ⟨?_, IH.2.1⟩
              intro y hy
              have := IH.2.2 y hy
              simpa using this
            · intro x hx
              simp only [accidentTimes, List.filterMap_append, List.filterMap] at hx
              simp only [List.head?] at hx
              simp only [Option.mem_def, Option.some.injEq] at hx
              subst hx
              exact hda
      · -- stuck alert, no accident
        have hstep : wdStep now r s =
            (⟨pushWindow s.window r, now, s.accidentLast⟩, [WDAlert.stuck now since]) := by
          simp only [wdStep, h1, h2]
        rw [hrun, hstep]
        have IH := ih (⟨pushWindow s.window r, now, s.accidentLast⟩ : WDState) hrest
        have hds : debS s.stuckLast now := wdCheckStuck_debounce h1
        refine ⟨⟨?_, ?_⟩, ?_⟩
        · simp only [stuckTimes, List.filterMap_append, List.filterMap]
          refine List.chain'_cons'.mpr ⟨?_, IH.1.1⟩
          intro y hy
          have := IH.1.2 y hy
          simpa using this
        · intro x hx
          simp only [stuckTimes, List.filterMap_append, List.filterMap, List.head?] at hx
          simp only [Option.mem_def, Option.some.injEq] at hx
          subst hx
          exact hds
        · simpa [accidentTimes, List.filterMap_append] using IH.2
      · -- stuck alert and accident pattern hit
        by_cases hdb : now - s.accidentLast < ACCIDENT_DEBOUNCE
        · have hstep : wdStep now r s =
              (⟨pushWindow s.window r, now, s.accidentLast⟩, [WDAlert.stuck now since]) := by
            simp only [wdStep, h1, h2]
            rw [if_pos hdb]
          rw [hrun, hstep]
          have IH := ih (⟨pushWindow s.window r, now, s.accidentLast⟩ : WDState) hrest
          have hds : debS s.stuckLast now := wdCheckStuck_debounce h1
          refine ⟨⟨?_, ?_⟩, ?_⟩
          · simp only [stuckTimes, List.filterMap_append, List.filterMap]
            refine List.chain'_cons'.mpr ⟨?_, IH.1.1⟩
            intro y hy
            have := IH.1.2 y hy
            simpa using this
          · intro x hx
            simp only [stuckTimes, List.filterMap_append, List.filterMap, List.head?] at hx
            simp only [Option.mem_def, Option.some.injEq] at hx
            subst hx
            exact hds
          · simpa [accidentTimes, List.filterMap_append] using IH.2
        · have hstep : wdStep now r s =
              (⟨pushWindow s.window r, now, now⟩,
               [WDAlert.stuck now since, WDAlert.accident now t rat]) := by
            simp only [wdStep, h1, h2]
            rw [if_neg hdb]
          rw [hrun, hstep]
          have IH := ih (⟨pushWindow s.window r, now, now⟩ : WDState) hrest
          have hds : debS s.stuckLast now := wdCheckStuck_debounce h1
          have hda : debA s.accidentLast now := by
            unfold debA
            omega
          refine ⟨⟨?_, ?_⟩, ⟨?_, ?_⟩⟩
          · simp only [stuckTimes, List.filterMap_append, List.filterMap]
            refine List.chain'_cons'.mpr ⟨?_, IH.1.1⟩
            intro y hy
            have := IH.1.2 y hy
            simpa using this
          · intro x hx
            simp only [stuckTimes, List.filterMap_append, List.filterMap, List.head?] at hx
            simp only [Option.mem_def, Option.some.injEq] at hx
            subst hx
            exact hds
          · simp only [accidentTimes, List.filterMap_append, List.filterMap]
            refine List.chain'_cons'.mpr ⟨?_, IH.2.1⟩
            intro y hy
            have := IH.2.2 y hy
            simpa using this
          · intro x hx
            simp only [accidentTimes, List.filterMap_append, List.filterMap, List.head?] at hx
            simp only [Option.mem_def, Option.some.injEq] at hx
            subst hx
            exact hda

/-- A run over a concatenated interaction stream is the run over the first
part followed by the run over the second from the reached state; so the
alerts an execution emits during any op segment form a contiguous block of
its full alert trace. -/
theorem wdRun_append (l₁ : List WDOp) : ∀ (s : WDState) (l₂ : List WDOp),
    wdRun s (l₁ ++ l₂) = wdRun s l₁ ++ wdRun (wdRunState s l₁) l₂ := by
  induction l₁ with
  | nil => intro s l₂; rfl
  | cons op rest ih =>
    intro s l₂
    cases op with
    | procRec now r =>
      calc wdRun s (WDOp.procRec now r :: rest ++ l₂)
          = (wdStep now r s).2 ++ wdRun (wdStep now r s).1 (rest ++ l₂) := rfl
        _ = (wdStep now r s).2 ++ (wdRun (wdStep now r s).1 rest ++
              wdRun (wdRunState (wdStep now r s).1 rest) l₂) := by rw [ih]
        _ = ((wdStep now r s).2 ++ wdRun (wdStep now r s).1 rest) ++
              wdRun (wdRunState (wdStep now r s).1 rest) l₂ := by
            rw [List.append_assoc]
        _ = wdRun s (WDOp.procRec now r :: rest) ++
              wdRun (wdRunState s (WDOp.procRec now r :: rest)) l₂ := rfl
    | clearState =>
      calc wdRun s (WDOp.clearState :: rest ++ l₂)
          = wdRun ⟨[], 0, 0⟩ (rest ++ l₂) := rfl
        _ = wdRun ⟨[], 0, 0⟩ rest ++ wdRun (wdRunState (⟨[], 0, 0⟩ : WDState) rest) l₂ := by
            rw [ih]
        _ = wdRun s (WDOp.clearState :: rest) ++
              wdRun (wdRunState s (WDOp.clearState :: rest)) l₂ := rfl

/-- Claim C9, amended: between any two emitted stuck alerts for a client
with no `clear_client_state` call between them, wall-clock time differs by
at least `STUCK_DEBOUNCE`, and analogously for accident alerts with
`ACCIDENT_DEBOUNCE` — a clear between them drops the debounce timestamps,
as the counterexample shows.  Per-pair formalization: in every execution
`ops₁ ++ ops₂ ++ ops₃` whose middle segment `ops₂` is clear-free — clears
before or after are allowed — the alerts emitted during `ops₂` (the middle
block of the full trace, by the decomposition conjunct) are pairwise
debounced per kind.  Two alerts with no clear between them always lie in
such a block: take `ops₂` to span their emitting ops. -/
theorem c9_debounce_between_alerts (ops₁ ops₂ ops₃ : List WDOp)
    (h : WDOp.clearState ∉ ops₂) :
    List.Pairwise debS (stuckTimes (wdRun (wdRunState wdInit ops₁) ops₂)) ∧
    List.Pairwise debA (accidentTimes (wdRun (wdRunState wdInit ops₁) ops₂)) ∧
    wdRun wdInit (ops₁ ++ ops₂ ++ ops₃) =
      wdRun wdInit ops₁ ++ wdRun (wdRunState wdInit ops₁) ops₂ ++
        wdRun (wdRunState (wdRunState wdInit ops₁) ops₂) ops₃ := by
  refine ⟨List.chain'_iff_pairwise.mp (wdRun_debounce ops₂ _ h).1.1,
          List.chain'_iff_pairwise.mp (wdRun_debounce ops₂ _ h).2.1, ?_⟩
  rw [List.append_assoc, wdRun_append, wdRun_append, List.append_assoc]

/-- Witness for the amended C9: an execution whose prefix raises an alert
at 1000 and clears; in the clear-free segment after the clear, the two
stuck alerts (1100 and 2100) are pairwise debounced, and the full trace
decomposes around that segment's block. -/
theorem c9_debounce_between_alerts_witness :
    stuckTimes (wdRun (wdRunState wdInit c9OpsPre) c9OpsSeg) = [1100, 2100] ∧
    List.Pairwise debS (stuckTimes (wdRun (wdRunState wdInit c9OpsPre) c9OpsSeg)) ∧
    List.Pairwise debA (accidentTimes (wdRun (wdRunState wdInit c9OpsPre) c9OpsSeg)) ∧
    wdRun wdInit (c9OpsPre ++ c9OpsSeg ++ []) =
      wdRun wdInit c9OpsPre ++ wdRun (wdRunState wdInit c9OpsPre) c9OpsSeg ++
        wdRun (wdRunState (wdRunState wdInit c9OpsPre) c9OpsSeg) [] :=
  ⟨by with_unfolding_all decide,
   (c9_debounce_between_alerts c9OpsPre c9OpsSeg [] (by with_unfolding_all decide)).1,
   (c9_debounce_between_alerts c9OpsPre c9OpsSeg [] (by with_unfolding_all decide)).2.1,
   (c9_debounce_between_alerts c9OpsPre c9OpsSeg [] (by with_unfolding_all decide)).2.2⟩
/-! ### The near-miss merger: structure of its output and idempotence -/

theorem minByKey_cons (c x : CrashCand) (xs : List CrashCand) :
    minByKey c (x :: xs) = minByKey (if candKey x < candKey c then x else c) xs := rfl

/-- `min` returns an element of its input. -/
theorem minByKey_mem (l : List CrashCand) : ∀ (c : CrashCand),
    minByKey c l = c ∨ minByKey c l ∈ l := by
  induction l with
  | nil => exact fun c => Or.inl rfl
  | cons x xs ih =>
    intro c
    rw [minByKey_cons]
    rcases ih (if candKey x < candKey c then x else c) with h | h
    · rw [h]
      split
      · exact Or.inr (List.mem_cons_self _ _)
      · exact Or.inl rfl
    · exact Or.inr (List.mem_cons_of_mem _ h)

/-- The group representative is a member of the group. -/
theorem groupBest_mem (g : List CrashCand) (lastc : CrashCand) :
    groupBest g lastc ∈ g ++ [lastc] := by
  cases g with
  | nil => simp [groupBest]
  | cons hd tl =>
    have hdef : groupBest (hd :: tl) lastc = minByKey hd (tl ++ [lastc]) := rfl
    rw [hdef]
    rcases minByKey_mem (tl ++ [lastc]) hd with h | h
    · rw [h]
      exact List.mem_cons_self _ _
    · exact List.mem_cons_of_mem _ h

/-- Representatives of consecutive groups are more than `MERGE_WINDOW_S`
apart, and the first representative's `t` is bounded below by the open
group's lower bound. -/
theorem groupGo_chain : ∀ (rest g : List CrashCand) (lastc : CrashCand) (lo : Int),
    (∀ x ∈ g, lo ≤ x.t ∧ x.t ≤ lastc.t) → lo ≤ lastc.t →
    List.Chain' candLe (lastc :: rest) →
    List.Chain' (fun a b => MERGE_WINDOW_S < b.t - a.t) (groupGo g lastc rest) ∧
    ∀ h, (groupGo g lastc rest).head? = some h → lo ≤ h.t := by
  intro rest
  induction rest with
  | nil =>
    intro g lastc lo hg hlo _
    refine ⟨by simp [groupGo], ?_⟩
    intro h hh
    simp only [groupGo, List.head?, Option.some.injEq] at hh
    subst hh
    rcases List.mem_append.mp (groupBest_mem g lastc) with hm | hm
    · exact (hg _ hm).1
    · simp only [List.mem_singleton] at hm
      rw [hm]
      exact hlo
  | cons c rest' ih =>
    intro g lastc lo hg hlo hchain
    have hle : candLe lastc c := (List.chain'_cons.mp hchain).1
    have hchain' : List.Chain' candLe (c :: rest') := (List.chain'_cons.mp hchain).2
    unfold groupGo
    by_cases hc : c.t - lastc.t ≤ MERGE_WINDOW_S
    · rw [if_pos hc]
      refine ih (g ++ [lastc]) c lo ?_ (le_trans hlo hle) hchain'
      intro x hx
      rcases List.mem_append.mp hx with hm | hm
      · exact ⟨(hg x hm).1, le_trans (hg x hm).2 hle⟩
      · simp only [List.mem_singleton] at hm
        subst hm
        exact ⟨hlo, hle⟩
    · rw [if_neg hc]
      have hgap : MERGE_WINDOW_S < c.t - lastc.t := not_le.mp hc
      have IH := ih [] c c.t (by simp) (le_refl _) hchain'
      have hb : (groupBest g lastc).t ≤ lastc.t := by
        rcases List.mem_append.mp (groupBest_mem g lastc) with hm | hm
        · exact (hg _ hm).2
        · simp only [List.mem_singleton] at hm
          rw [hm]
      constructor
      · refine List.chain'_cons'.mpr ⟨?_, IH.1⟩
        intro y hy
        have hyt : c.t ≤ y.t := IH.2 y (Option.mem_def.mp hy)
        have : MERGE_WINDOW_S < y.t - (groupBest g lastc).t := by linarith
        exact this
      · intro h hh
        simp only [List.head?, Option.some.injEq] at hh
        subst hh
        rcases List.mem_append.mp (groupBest_mem g lastc) with hm | hm
        · exact (hg _ hm).1
        · simp only [List.mem_singleton] at hm
          rw [hm]
          exact hlo

/-- Consecutive representatives produced by the merger are always more than
`MERGE_WINDOW_S` seconds apart. -/
theorem mergeCandidates_chain (l : List CrashCand) :
    List.Chain' (fun a b => MERGE_WINDOW_S < b.t - a.t) (mergeCandidates l) := by
  unfold mergeCandidates
  have hsorted : List.Sorted candLe (sortCands l) := List.sorted_insertionSort candLe l
  rcases hs : sortCands l with _ | ⟨c, rest⟩
  · simp
  · rw [hs] at hsorted
    exact (groupGo_chain rest [] c c.t (by simp) (le_refl _)
      (List.Pairwise.chain' hsorted)).1

/-- On a list whose consecutive elements are already more than
`MERGE_WINDOW_S` apart, the grouping pass puts every candidate in its own
group and returns the list unchanged. -/
theorem groupGo_fixpoint : ∀ (rest : List CrashCand) (c : CrashCand),
    List.Chain' (fun a b => MERGE_WINDOW_S < b.t - a.t) (c :: rest) →
    groupGo [] c rest = c :: rest := by
  intro rest
  induction rest with
  | nil => exact fun c _ => rfl
  | cons d rest' ih =>
    intro c hchain
    have hgap := (List.chain'_cons.mp hchain).1
    have hchain' := (List.chain'_cons.mp hchain).2
    unfold groupGo
    rw [if_neg (not_le.mpr hgap)]
    rw [show groupBest [] c = c from rfl, ih d hchain']

/-- A list with all consecutive gaps above `MERGE_WINDOW_S` is a fixed
point of the merger. -/
theorem mergeCandidates_fix (l : List CrashCand)
    (h : List.Chain' (fun a b => MERGE_WINDOW_S < b.t - a.t) l) :
    mergeCandidates l = l := by
  have hMW : (0 : Int) ≤ MERGE_WINDOW_S := by norm_num [MERGE_WINDOW_S]
  have hsort : sortCands l = l := by
    apply List.Sorted.insertionSort_eq
    have hle : List.Chain' candLe l :=
      h.imp (fun {a b} hab => by unfold candLe; linarith)
    exact List.chain'_iff_pairwise.mp hle
  unfold mergeCandidates
  rw [hsort]
  cases l with
  | nil => rfl
  | cons c rest => exact groupGo_fixpoint rest c h

/-- Claim C8: the near-miss sort-and-merge step is idempotent — applied to
its own output it returns that output unchanged. -/
theorem c8_merge_idempotent (l : List CrashCand) :
    mergeCandidates (mergeCandidates l) = mergeCandidates l :=
  mergeCandidates_fix _ (mergeCandidates_chain l)

/-! ### Structure of the stuck intervals (claim C7) -/

theorem stuckWalkGo_nil_none (depths : List ℚ) : stuckWalkGo none depths [] = [] := rfl

theorem stuckWalkGo_nil_some (depths : List ℚ) (s e : Int) :
    stuckWalkGo (some (s, e)) depths [] =
      if STUCK_MIN_S ≤ e - s then [⟨s, e, e - s⟩] else [] := rfl

theorem stuckWalkGo_cons_none (depths : List ℚ) (t : Int) (r : LogRecord)
    (rest : List (Int × LogRecord)) :
    stuckWalkGo none depths ((t, r) :: rest) =
      if isStationaryIx r (depthsUpd depths r) then
        stuckWalkGo (some (t, t)) (depthsUpd depths r) rest
      else
        stuckWalkGo none (depthsUpd depths r) rest := rfl

theorem stuckWalkGo_cons_some (depths : List ℚ) (s e t : Int) (r : LogRecord)
    (rest : List (Int × LogRecord)) :
    stuckWalkGo (some (s, e)) depths ((t, r) :: rest) =
      if isStationaryIx r (depthsUpd depths r) then
        stuckWalkGo (some (s, t)) (depthsUpd depths r) rest
      else
        (if STUCK_MIN_S ≤ e - s then [⟨s, e, e - s⟩] else []) ++
          stuckWalkGo none [] rest := rfl

/-- Invariants of the interval walk over strictly time-increasing records:
every emitted interval is consistent and long enough, intervals are emitted
strictly separated in stream order, and each interval starts at the open
candidate's start or at the timestamp of one of the remaining records. -/
theorem stuckWalkGo_good : ∀ (rs : List (Int × LogRecord)) (cur : Option (Int × Int))
    (depths : List ℚ),
    List.Chain' pairLt rs →
    (∀ s e, cur = some (s, e) → s ≤ e ∧ ∀ p ∈ rs, e < p.1) →
    goodDurations (stuckWalkGo cur depths rs) ∧
    List.Chain' ivSep (stuckWalkGo cur depths rs) ∧
    (∀ iv ∈ stuckWalkGo cur depths rs,
      (∃ s e, cur = some (s, e) ∧ iv.start_t = s) ∨ iv.start_t ∈ rs.map Prod.fst) := by
  intro rs
  induction rs with
  | nil =>
    intro cur depths _ hcur
    rcases cur with _ | ⟨s, e⟩
    · rw [stuckWalkGo_nil_none]
      simp [goodDurations]
    · rw [stuckWalkGo_nil_some]
      by_cases hd : STUCK_MIN_S ≤ e - s
      · rw [if_pos hd]
        refine ⟨?_, by simp, ?_⟩
        · intro iv hiv
          simp only [List.mem_singleton] at hiv
          subst hiv
          exact ⟨rfl, hd⟩
        · intro iv hiv
          simp only [List.mem_singleton] at hiv
          subst hiv
          exact Or.inl ⟨s, e, rfl, rfl⟩
      · rw [if_neg hd]
        simp [goodDurations]
  | cons p rest ih =>
    obtain ⟨t, r⟩ := p
    intro cur depths hchain hcur
    have hrest_chain : List.Chain' pairLt rest := (List.chain'_cons'.mp hchain).2
    have hall : ∀ q ∈ rest, t < q.1 := by
      have hp := List.chain'_iff_pairwise.mp hchain
      exact fun q hq => (List.pairwise_cons.mp hp).1 q hq
    rcases cur with _ | ⟨s, e⟩
    · rw [stuckWalkGo_cons_none]
      by_cases hst : isStationaryIx r (depthsUpd depths r) = true
      · rw [if_pos hst]
        have IH := ih (some (t, t)) (depthsUpd depths r) hrest_chain
          (by
            intro s' e' hc
            injection hc with hc'
            injection hc' with h1 h2
            subst h1
            subst h2
            exact ⟨le_refl t, hall⟩)
        refine ⟨IH.1, IH.2.1, ?_⟩
        intro iv hiv
        rcases IH.2.2 iv hiv with ⟨s', e', hc, hstart⟩ | hmem
        · injection hc with hc'
          injection hc' with h1 h2
          subst h1
          rw [hstart]
          exact Or.inr (by simp)
        · exact Or.inr (by simp only [List.map_cons]; exact List.mem_cons_of_mem _ hmem)
      · rw [if_neg hst]
        have IH := ih none (depthsUpd depths r) hrest_chain (by simp)
        refine ⟨IH.1, IH.2.1, ?_⟩
        intro iv hiv
        rcases IH.2.2 iv hiv with ⟨s', e', hc, _⟩ | hmem
        · exact absurd hc (by simp)
        · exact Or.inr (by simp only [List.map_cons]; exact List.mem_cons_of_mem _ hmem)
    · have hse := hcur s e rfl
      have het : e < t := hse.2 (t, r) (List.mem_cons_self _ _)
      rw [stuckWalkGo_cons_some]
      by_cases hst : isStationaryIx r (depthsUpd depths r) = true
      · rw [if_pos hst]
        have IH := ih (some (s, t)) (depthsUpd depths r) hrest_chain
          (by
            intro s' e' hc
            injection hc with hc'
            injection hc' with h1 h2
            subst h1
            subst h2
            exact ⟨le_trans hse.1 (le_of_lt het), hall⟩)
        refine ⟨IH.1, IH.2.1, ?_⟩
        intro iv hiv
        rcases IH.2.2 iv hiv with ⟨s', e', hc, hstart⟩ | hmem
        · injection hc with hc'
          injection hc' with h1 h2
          subst h1
          exact Or.inl ⟨s, e, rfl, hstart⟩
        · exact Or.inr (by simp only [List.map_cons]; exact List.mem_cons_of_mem _ hmem)
      · rw [if_neg hst]
        have IH := ih none [] hrest_chain (by simp)
        obtain ⟨g1, g2, g3⟩ := IH
        have hestart : ∀ iv ∈ stuckWalkGo none [] rest, e < iv.start_t := by
          intro iv hiv
          rcases g3 iv hiv with ⟨s', e', hc, _⟩ | hmem
          · exact absurd hc (by simp)
          · obtain ⟨q, hq, hqe⟩ := List.mem_map.mp hmem
            rw [← hqe]
            exact hse.2 q (List.mem_cons_of_mem _ hq)
        by_cases hd : STUCK_MIN_S ≤ e - s
        · rw [if_pos hd, List.singleton_append]
          refine ⟨?_, ?_, ?_⟩
          · intro iv hiv
            rcases List.mem_cons.mp hiv with h | h
            · subst h
              exact ⟨rfl, hd⟩
            · exact g1 iv h
          · refine List.chain'_cons'.mpr ⟨?_, g2⟩
            intro y hy
            exact hestart y (List.mem_of_mem_head? hy)
          · intro iv hiv
            rcases List.mem_cons.mp hiv with h | h
            · subst h
              exact Or.inl ⟨s, e, rfl, rfl⟩
            · rcases g3 iv h with ⟨s', e', hc, _⟩ | hmem
              · exact absurd hc (by simp)
              · exact Or.inr (by simp only [List.map_cons]; exact List.mem_cons_of_mem _ hmem)
        · rw [if_neg hd, List.nil_append]
          refine ⟨g1, g2, ?_⟩
          intro iv hiv
          rcases g3 iv hiv with ⟨s', e', hc, _⟩ | hmem
          · exact absurd hc (by simp)
          · exact Or.inr (by simp only [List.map_cons]; exact List.mem_cons_of_mem _ hmem)

theorem mergeStuckGo_nil (cur : StuckInterval) : mergeStuckGo cur [] = [cur] := rfl

theorem mergeStuckGo_cons (cur iv : StuckInterval) (rest : List StuckInterval) :
    mergeStuckGo cur (iv :: rest) =
      if iv.start_t - cur.end_t ≤ STUCK_GAP_S then
        mergeStuckGo ⟨cur.start_t, iv.end_t, iv.end_t - cur.start_t⟩ rest
      else
        cur :: mergeStuckGo iv rest := rfl

/-- Invariants of the gap-merging pass: consistent long durations are
preserved, consecutive output intervals are separated by more than
`STUCK_GAP_S`, the output is strictly ordered and non-overlapping, and the
first output interval starts where the open interval starts. -/
theorem mergeStuckGo_good : ∀ (rest : List StuckInterval) (cur : StuckInterval),
    goodDurations (cur :: rest) → List.Chain' ivSep (cur :: rest) →
    goodDurations (mergeStuckGo cur rest) ∧
    List.Chain' ivGap (mergeStuckGo cur rest) ∧
    List.Chain' ivBefore (mergeStuckGo cur rest) ∧
    (∀ h, (mergeStuckGo cur rest).head? = some h → h.start_t = cur.start_t) := by
  have hMIN : (0 : Int) < STUCK_MIN_S := by norm_num [STUCK_MIN_S]
  have hGAP : (0 : Int) ≤ STUCK_GAP_S := by norm_num [STUCK_GAP_S]
  intro rest
  induction rest with
  | nil =>
    intro cur hgd _
    rw [mergeStuckGo_nil]
    refine ⟨?_, by simp, by simp, ?_⟩
    · intro iv hiv
      simp only [List.mem_singleton] at hiv
      rw [hiv]
      exact hgd cur (List.mem_cons_self _ _)
    · intro h hh
      simp only [List.head?, Option.some.injEq] at hh
      subst hh
      rfl
  | cons iv rest' ih =>
    intro cur hgd hsep
    have hcur := hgd cur (List.mem_cons_self _ _)
    have hiv := hgd iv (List.mem_cons_of_mem _ (List.mem_cons_self _ _))
    have hs1 : ivSep cur iv := (List.chain'_cons.mp hsep).1
    have hsep' : List.Chain' ivSep (iv :: rest') := (List.chain'_cons.mp hsep).2
    rw [mergeStuckGo_cons]
    by_cases hgap : iv.start_t - cur.end_t ≤ STUCK_GAP_S
    · rw [if_pos hgap]
      have hgd' : goodDurations
          ((⟨cur.start_t, iv.end_t, iv.end_t - cur.start_t⟩ : StuckInterval) :: rest') := by
        intro jv hjv
        rcases List.mem_cons.mp hjv with h | h
        · subst h
          refine ⟨rfl, ?_⟩
          have h1 : STUCK_MIN_S ≤ cur.end_t - cur.start_t := hcur.1 ▸ hcur.2
          have h2 : iv.start_t < iv.end_t := by
            have := hiv.1 ▸ hiv.2
            unfold ivSep at hs1
            linarith
          unfold ivSep at hs1
          simp only
          linarith
        · exact hgd jv (List.mem_cons_of_mem _ (List.mem_cons_of_mem _ h))
      have hsep'' : List.Chain' ivSep
          ((⟨cur.start_t, iv.end_t, iv.end_t - cur.start_t⟩ : StuckInterval) :: rest') := by
        refine List.chain'_cons'.mpr ⟨?_, (List.chain'_cons'.mp hsep').2⟩
        intro y hy
        have := (List.chain'_cons'.mp hsep').1 y hy
        exact this
      have IH := ih _ hgd' hsep''
      exact ⟨IH.1, IH.2.1, IH.2.2.1, fun h hh => IH.2.2.2 h hh⟩
    · rw [if_neg hgap]
      have hgap' : STUCK_GAP_S < iv.start_t - cur.end_t := not_le.mp hgap
      have IH := ih iv (fun jv hjv => hgd jv (List.mem_cons_of_mem _ hjv)) hsep'
      have hhead : ∀ y ∈ (mergeStuckGo iv rest').head?, y.start_t = iv.start_t := by
        intro y hy
        exact IH.2.2.2 y (Option.mem_def.mp hy)
      refine ⟨?_, ?_, ?_, ?_⟩
      · intro jv hjv
        rcases List.mem_cons.mp hjv with h | h
        · subst h
          exact hcur
        · exact IH.1 jv h
      · refine List.chain'_cons'.mpr ⟨?_, IH.2.1⟩
        intro y hy
        have hys := hhead y hy
        unfold ivGap
        rw [hys]
        linarith
      · refine List.chain'_cons'.mpr ⟨?_, IH.2.2.1⟩
        intro y hy
        have hys := hhead y hy
        have hcs : cur.start_t < cur.end_t := by
          have := hcur.1 ▸ hcur.2
          linarith
        unfold ivSep at hs1
        unfold ivBefore
        rw [hys]
        exact ⟨by linarith, by linarith⟩
      · intro h hh
        rcases hm : mergeStuckGo iv rest' with _ | ⟨z, zs⟩ <;> rw [hm] at hh <;>
          simp only [List.head?, Option.some.injEq] at hh <;> subst hh <;> rfl

/-- `assocUpdate` preserves distinctness of the `by_time` keys. -/
theorem assocUpdate_keys_nodup (l : List (Int × LogRecord)) (t : Int) (r : LogRecord)
    (h : (l.map Prod.fst).Nodup) : ((assocUpdate l t r).map Prod.fst).Nodup := by
  unfold assocUpdate
  split
  · have heq : (l.map (fun p => if p.1 == t then (t, r) else p)).map Prod.fst =
        l.map Prod.fst := by
      rw [List.map_map]
      apply List.map_congr_left
      intro p _
      by_cases hpt : p.1 = t
      · simp [Function.comp, hpt]
      · simp [Function.comp, hpt]
    rw [heq]
    exact h
  · rename_i hany
    rw [List.map_append]
    rw [List.nodup_append]
    refine ⟨h, by simp, ?_⟩
    intro a ha hb
    simp only [List.map_cons, List.map_nil, List.mem_singleton] at hb
    obtain ⟨p, hp, hpt⟩ := List.mem_map.mp ha
    have hall : l.any (fun p => p.1 == t) = true :=
      List.any_eq_true.mpr ⟨p, hp, by simp [hpt, hb]⟩
    exact absurd hall (by simpa using hany)

/-- Each build step preserves distinctness of the `by_time` keys. -/
theorem processOne_keys_nodup (idx : UserIndex) (rr : RawRecord)
    (h : (idx.by_time.map Prod.fst).Nodup) :
    ((processOne idx rr).by_time.map Prod.fst).Nodup := by
  unfold processOne
  split
  · exact h
  · split
    · split
      · exact assocUpdate_keys_nodup _ _ _ h
      · exact h
    · exact h

/-- The keys of `by_time` built from any raw record list are distinct. -/
theorem buildIndexCore_keys_nodup (client : String) (raws : List RawRecord) :
    ((buildIndexCore client raws).by_time.map Prod.fst).Nodup := by
  suffices hstep : ∀ (rs : List RawRecord) (idx : UserIndex),
      (idx.by_time.map Prod.fst).Nodup →
      ((rs.foldl processOne idx).by_time.map Prod.fst).Nodup by
    exact hstep raws (emptyIndex client) (by simp [emptyIndex])
  intro rs
  induction rs with
  | nil => exact fun idx h => h
  | cons rr rest ih => exact fun idx h => ih _ (processOne_keys_nodup idx rr h)

/-- Sorting an association list with distinct keys by key yields a strictly
increasing key sequence. -/
theorem sortPairs_strict_chain (l : List (Int × LogRecord))
    (h : (l.map Prod.fst).Nodup) : List.Chain' pairLt (sortPairs l) := by
  have hperm : List.Perm (sortPairs l) l := List.perm_insertionSort pairLe l
  have hnodup : ((sortPairs l).map Prod.fst).Nodup :=
    ((hperm.map Prod.fst).nodup_iff).mpr h
  have hsorted : List.Sorted pairLe (sortPairs l) := List.sorted_insertionSort pairLe l
  have hne : List.Pairwise (fun a b : Int × LogRecord => a.1 ≠ b.1) (sortPairs l) :=
    List.pairwise_map.mp hnodup
  have hlt : List.Pairwise pairLt (sortPairs l) := by
    have hand := List.Pairwise.and hsorted hne
    exact hand.imp (fun {a b} hab => lt_of_le_of_ne hab.1 hab.2)
  exact hlt.chain'

/-- Claim C7: for every input record set, the stuck intervals the indexer
produces have `duration_s = end_t - start_t ≥ STUCK_MIN_S`, are pairwise
non-overlapping and ordered ascending by `start_t`, and no two consecutive
intervals are separated by a gap of at most `STUCK_GAP_S`. -/
theorem c7_stuck_intervals_structure (client : String) (raws : List RawRecord) :
    goodDurations (findStuckIntervals (buildIndexCore client raws).by_time) ∧
    List.Pairwise ivBefore (findStuckIntervals (buildIndexCore client raws).by_time) ∧
    List.Chain' ivGap (findStuckIntervals (buildIndexCore client raws).by_time) := by
  have hnodup := buildIndexCore_keys_nodup client raws
  have hchain := sortPairs_strict_chain _ hnodup
  have hwalk := stuckWalkGo_good (sortPairs (buildIndexCore client raws).by_time) none []
    hchain (by simp)
  unfold findStuckIntervals
  rcases hw : stuckWalkGo none [] (sortPairs (buildIndexCore client raws).by_time) with
    _ | ⟨iv, rest⟩
  · exact ⟨by simp [mergeStuck, goodDurations], by simp [mergeStuck], by simp [mergeStuck]⟩
  · rw [hw] at hwalk
    have hm := mergeStuckGo_good rest iv hwalk.1 hwalk.2.1
    have hms : mergeStuck (iv :: rest) = mergeStuckGo iv rest := rfl
    rw [hms]
    exact ⟨hm.1, List.chain'_iff_pairwise.mp hm.2.2.1, hm.2.1⟩

/-- Witness for C7 at a concrete record set. -/
theorem c7_stuck_intervals_structure_witness :
    goodDurations (findStuckIntervals (buildIndexCore "c" [rrEmptyEvents, rrBadConf]).by_time) ∧
    List.Pairwise ivBefore
      (findStuckIntervals (buildIndexCore "c" [rrEmptyEvents, rrBadConf]).by_time) ∧
    List.Chain' ivGap
      (findStuckIntervals (buildIndexCore "c" [rrEmptyEvents, rrBadConf]).by_time) :=
  c7_stuck_intervals_structure "c" [rrEmptyEvents, rrBadConf]

/-- Witness for C8 at a concrete candidate list. -/
theorem c8_merge_idempotent_witness :
    mergeCandidates (mergeCandidates
      [{ t := 0, free_ahead_m := some 0, classes := [], confidence := 1,
         events := ["obstacle_center"] },
       { t := 1, free_ahead_m := none, classes := [], confidence := 1,
         events := ["obstacle_close"] }]) =
    mergeCandidates
      [{ t := 0, free_ahead_m := some 0, classes := [], confidence := 1,
         events := ["obstacle_center"] },
       { t := 1, free_ahead_m := none, classes := [], confidence := 1,
         events := ["obstacle_close"] }] :=
  c8_merge_idempotent
    [{ t := 0, free_ahead_m := some 0, classes := [], confidence := 1,
       events := ["obstacle_center"] },
     { t := 1, free_ahead_m := none, classes := [], confidence := 1,
       events := ["obstacle_close"] }]

/-- Witness for the amended C3 at a concrete record and depth window. -/
theorem c3_same_stationary_predicate_witness :
    wdIsStationary (stopRec 0) [1, 1, 1] = isStationaryIx (stopRec 0) [1, 1, 1] :=
  c3_same_stationary_predicate (stopRec 0) [1, 1, 1]

end PathSense
